import Mathlib

/-!
Verification of the Safe-Insert ledger and recurrence engine.

The definitions below are a shallow embedding of the Store object of the
source (`js` implementation): monetary amounts are modelled as exact
rationals (the spec's design notes mandate exact decimal semantics for the
arithmetic contracts), JavaScript `Date` values are modelled as a record of
local calendar fields together with the normalization that the `Date`
constructor performs on out-of-range day/month arguments, and the mutable
singleton store is modelled by explicit state passing.  Identifier-typed
fields (`id`, `accountId`, `recurringId`, ...) are strings; fields that can
be `undefined` in the source are `Option`-typed.  A single fixed time zone
is assumed throughout (the code only ever compares local calendar fields
and timestamps produced in one zone).
-/

/-! ### Calendar arithmetic

A `JSDate` stores `mc`, the count of calendar months since year 0
(`year * 12 + monthIndex` with `monthIndex ∈ 0..11`), the day of month and
the time-of-day fields.  `normD` reproduces the day-overflow normalization
of `new Date(year, month, day, ...)`: a day larger than the month length
rolls forward into the following months. -/

def isLeap (y : Nat) : Bool :=
  (y % 4 == 0 && y % 100 != 0) || y % 400 == 0

def monthLength (y m : Nat) : Nat :=
  if m = 1 then (if isLeap y then 29 else 28)
  else if m = 3 ∨ m = 5 ∨ m = 8 ∨ m = 10 then 30
  else 31

def monthLenM (mc : Nat) : Nat :=
  monthLength (mc / 12) (mc % 12)

def normDAux : Nat → Nat → Nat → Nat × Nat
  | 0, mc, d => (mc, d)
  | fuel + 1, mc, d =>
    if d ≤ monthLenM mc then (mc, d) else normDAux fuel (mc + 1) (d - monthLenM mc)

def normD (mc d : Nat) : Nat × Nat :=
  normDAux d mc d

structure JSDate where
  mc : Nat
  day : Nat
  hour : Nat := 0
  min : Nat := 0
  sec : Nat := 0
  ms : Nat := 0
deriving DecidableEq

def JSDate.getMonth (d : JSDate) : Nat := d.mc % 12

def JSDate.getFullYear (d : JSDate) : Nat := d.mc / 12

def JSDate.getDate (d : JSDate) : Nat := d.day

/-- Model of `new Date(year, month, day, hour, 0, 0)` for the nonnegative
arguments the program uses: the month count may exceed 11 and the day may
exceed the month length; both roll forward as in JavaScript. -/
def mkDate (year month day hour : Nat) : JSDate :=
  let p := normD (year * 12 + month) day
  { mc := p.1, day := p.2, hour := hour }

/-- Model of `date.setDate(0)`: move to the last day of the previous month,
keeping the time of day. -/
def JSDate.setDate0 (d : JSDate) : JSDate :=
  { d with mc := d.mc - 1, day := monthLenM (d.mc - 1) }

/-- Model of `date.setHours(h, mi, s, ms)`. -/
def JSDate.setHoursAll (d : JSDate) (h mi s ms : Nat) : JSDate :=
  { d with hour := h, min := mi, sec := s, ms := ms }

/-- Millisecond-style key that is order-isomorphic to the JavaScript
timestamp for dates whose fields are in their usual ranges (day ≤ 31,
hour ≤ 23, minute/second ≤ 59, millisecond ≤ 999); `Date` comparison in
the source is timestamp comparison. -/
def dateKey (d : JSDate) : Nat :=
  ((((d.mc * 32 + d.day) * 24 + d.hour) * 60 + d.min) * 60 + d.sec) * 1000 + d.ms

/-- Field-range validity under which `dateKey` is faithful to timestamp
order. -/
def ValidDate (d : JSDate) : Prop :=
  1 ≤ d.day ∧ d.day ≤ 31 ∧ d.hour ≤ 23 ∧ d.min ≤ 59 ∧ d.sec ≤ 59 ∧ d.ms ≤ 999

instance (d : JSDate) : Decidable (ValidDate d) := by
  unfold ValidDate; infer_instance

/-! ### Entities -/

inductive TxnType
  | income
  | expense
deriving DecidableEq

inductive AccountType
  | mei
  | cash
deriving DecidableEq

inductive RuleType
  | fixed
  | reminder
deriving DecidableEq

structure Txn where
  id : String := ""
  type : TxnType
  amount : ℚ
  description : Option String := none
  category : Option String := none
  date : JSDate
  accountId : Option String := none
  isHomeExpense : Bool := false
  isPaid : Bool := false
  recurringId : Option String := none
  installmentId : Option String := none
  isReminder : Bool := false
deriving DecidableEq

structure Account where
  id : String
  name : String := ""
  type : AccountType
  initialBalance : ℚ := 0
deriving DecidableEq

structure Rule where
  id : String
  title : String := ""
  category : Option String := none
  amount : ℚ := 0
  day : Nat := 10
  type : RuleType := RuleType.fixed
  active : Bool := true
deriving DecidableEq

/-- The slice of `Store.data` that the verified operations read and write.
The category vocabularies and report-window scalars are omitted: none of
the operations verified here touch them. -/
structure StoreData where
  transactions : List Txn := []
  accounts : List Account := []
  recurring : List Rule := []
  selectedMonth : JSDate
deriving DecidableEq

/-! ### Derived metrics (Store.getAccountBalance, limit statuses) -/

/-- Embedding of `Store.getAccountBalance`.  Note: the source filters only
by `accountId` and `type`; there is no `isHomeExpense` filter. -/
def getAccountBalance (s : StoreData) (accountId : String) : ℚ :=
  match s.accounts.find? (fun a => a.id == accountId) with
  | none => 0
  | some account =>
    let income := (s.transactions.filter (fun t =>
      t.accountId == some accountId && t.type == TxnType.income)).foldl
        (fun acc t => acc + t.amount) 0
    let expenses := (s.transactions.filter (fun t =>
      t.accountId == some accountId && t.type == TxnType.expense)).foldl
        (fun acc t => acc + t.amount) 0
    account.initialBalance + income - expenses

/-- The balance formula in the spec's words: the same sums, additionally
restricted to transactions with `isHomeExpense = false`.  Declared only to
be compared with `getAccountBalance`. -/
def specAccountBalance (s : StoreData) (accountId : String) : ℚ :=
  match s.accounts.find? (fun a => a.id == accountId) with
  | none => 0
  | some account =>
    account.initialBalance
      + ((s.transactions.filter (fun t =>
          t.accountId == some accountId && t.type == TxnType.income
            && t.isHomeExpense == false)).map Txn.amount).sum
      - ((s.transactions.filter (fun t =>
          t.accountId == some accountId && t.type == TxnType.expense
            && t.isHomeExpense == false)).map Txn.amount).sum

inductive LimitLevel
  | safe
  | warning
  | critical
deriving DecidableEq

structure LimitStatus where
  total : ℚ
  limitSafe : ℚ
  limitMax : ℚ
  status : LimitLevel
  percent : ℚ
deriving DecidableEq

/-- Embedding of `Store.getAccountLimitStatus`; `now` stands for the
`new Date()` the source consults for the current year. -/
def getAccountLimitStatus (s : StoreData) (accountId : String) (now : JSDate) :
    Option LimitStatus :=
  match s.accounts.find? (fun a => a.id == accountId) with
  | none => none
  | some account =>
    if account.type != AccountType.mei then none
    else
      let yearIncome := (s.transactions.filter (fun t =>
        t.accountId == some accountId && t.type == TxnType.income
          && t.date.getFullYear == now.getFullYear)).foldl
          (fun acc t => acc + t.amount) 0
      let total := account.initialBalance + yearIncome
      let status :=
        if total > 97200 then LimitLevel.critical
        else if total > 81000 then LimitLevel.warning
        else LimitLevel.safe
      some { total := total, limitSafe := 81000, limitMax := 97200,
             status := status, percent := total / 81000 * 100 }

/-- Embedding of `Store.getAccountMonthlyStatus`; `now` stands for the
`new Date()` the source consults for the current month and year. -/
def getAccountMonthlyStatus (s : StoreData) (accountId : String) (now : JSDate) :
    Option LimitStatus :=
  match s.accounts.find? (fun a => a.id == accountId) with
  | none => none
  | some account =>
    if account.type != AccountType.mei then none
    else
      let monthIncome := (s.transactions.filter (fun t =>
        t.accountId == some accountId && t.type == TxnType.income
          && t.date.getMonth == now.getMonth
          && t.date.getFullYear == now.getFullYear)).foldl
          (fun acc t => acc + t.amount) 0
      let status :=
        if monthIncome > 8100 then LimitLevel.critical
        else if monthIncome > 6750 then LimitLevel.warning
        else LimitLevel.safe
      some { total := monthIncome, limitSafe := 6750, limitMax := 8100,
             status := status, percent := monthIncome / 6750 * 100 }

/-! ### Recurrence materializer (Store.ensureRecurringForMonth) -/

/-- The date `ensureRecurringForMonth` gives a materialized transaction:
`new Date(year, month, rule.day || 10, 12, 0, 0)`, followed by
`setDate(0)` when the constructed date overflowed out of `month`. -/
def recurDate (year month day : Nat) : JSDate :=
  let nd := mkDate year month (if day = 0 then 10 else day) 12
  if nd.getMonth ≠ month then nd.setDate0 else nd

/-- The transaction `ensureRecurringForMonth` pushes for a rule that has no
materialization in the target month yet.  The fresh `crypto.randomUUID()`
id and the `createdAt` wall-clock stamp are metadata no verified property
reads; they are left at their defaults. -/
def recurTxn (rule : Rule) (year month : Nat) : Txn :=
  { type := TxnType.expense,
    amount := if rule.type == RuleType.reminder then 0 else rule.amount,
    description := some rule.title,
    category := rule.category,
    date := recurDate year month rule.day,
    isHomeExpense := true,
    isPaid := false,
    recurringId := some rule.id,
    isReminder := rule.type == RuleType.reminder }

/-- The existence check of step 1 of the materializer, for one rule. -/
def txnMatches (rid : String) (month year : Nat) (t : Txn) : Bool :=
  t.recurringId == some rid && t.date.getMonth == month
    && t.date.getFullYear == year

/-- One iteration of the `forEach` body of `ensureRecurringForMonth`. -/
def ensureStep (month year : Nat) (txs : List Txn) (rule : Rule) : List Txn :=
  if rule.active = false then txs
  else if txs.any (txnMatches rule.id month year) then txs
  else txs ++ [recurTxn rule year month]

/-- Embedding of `Store.ensureRecurringForMonth`. -/
def ensureRecurringForMonth (s : StoreData) (monthDate : JSDate) : StoreData :=
  { s with
    transactions := s.recurring.foldl
        (ensureStep monthDate.getMonth monthDate.getFullYear) s.transactions }

/-- Embedding of `Store.addRecurring`: assign the fresh id, force
`active = true`, append the rule, then materialize the currently selected
month. -/
def addRecurring (s : StoreData) (item : Rule) (newId : String) : StoreData :=
  let item2 := { item with id := newId, active := true }
  let s2 := { s with recurring := s.recurring ++ [item2] }
  ensureRecurringForMonth s2 s2.selectedMonth

/-- Number of transactions a store holds for a given (rule id, month,
year) triple. -/
def countMatching (txs : List Txn) (rid : String) (month year : Nat) : Nat :=
  (txs.filter (txnMatches rid month year)).length

/-! ### Installment expansion (the `install` branch of submitHomeExpense) -/

/-- The batch of transactions the `install` branch of
`Actions.submitHomeExpense` pushes: `qty` expenses on consecutive months,
starting from the month of `selectedMonth`, on its day-of-month unless that
exceeds 28, in which case the source resets the day to 1.  `modeTotal`
distinguishes the "total" amount mode from the per-installment mode;
`groupId` stands for the fresh `crypto.randomUUID()` shared by the
batch. -/
def installParcels (selectedMonth : JSDate) (category : String) (amount : ℚ)
    (qty : Nat) (modeTotal : Bool) (isPaid : Bool) (groupId : String) :
    List Txn :=
  let parcelValue := if modeTotal then amount / qty else amount
  let startMonth := selectedMonth.getMonth
  let startYear := selectedMonth.getFullYear
  let day := if selectedMonth.getDate > 28 then 1 else selectedMonth.getDate
  (List.range qty).map (fun i =>
    { type := TxnType.expense,
      amount := parcelValue,
      category := some (category ++ " (" ++ toString (i + 1) ++ "/"
        ++ toString qty ++ ")"),
      date := mkDate startYear (startMonth + i) day 12,
      isHomeExpense := true,
      isPaid := if i = 0 then isPaid else false,
      installmentId := some groupId })

/-! ### Category aggregation (the groupByCat helper of Views.reports) -/

/-- Model of `t.category || 'Outros'`: an absent category and the empty
string (both falsy) fall back to the label `Outros`. -/
def jsCat (t : Txn) : String :=
  match t.category with
  | none => "Outros"
  | some c => if c = "" then "Outros" else c

/-- One step of the accumulation `if (!map[cat]) map[cat] = 0;
map[cat] += t.amount` over the insertion-ordered string-keyed object. -/
def addCat : List (String × ℚ) → String → ℚ → List (String × ℚ)
  | [], c, a => [(c, a)]
  | (k, v) :: rest, c, a =>
    if k = c then (k, v + a) :: rest else (k, v) :: addCat rest c a

/-- Stable descending insertion used to model
`.sort((a, b) => b[1] - a[1])`: an element moves ahead of exactly the
entries with strictly smaller totals, which is the (unique) result of any
stable sort under that comparator — `Array.prototype.sort` is stable. -/
def insertDesc (p : String × ℚ) : List (String × ℚ) → List (String × ℚ)
  | [] => [p]
  | q :: rest => if q.2 < p.2 then p :: q :: rest else q :: insertDesc p rest

/-- Stable sort by descending total. -/
def sortDesc (l : List (String × ℚ)) : List (String × ℚ) :=
  l.foldl (fun acc p => insertDesc p acc) []

structure CatGroup where
  name : String
  val : ℚ
  percent : ℚ
deriving DecidableEq

/-- The group record `groupByCat` builds for one `[name, val]` entry given
the grand total. -/
def mkGroup (total : ℚ) (p : String × ℚ) : CatGroup :=
  { name := p.1, val := p.2,
    percent := if total > 0 then p.2 / total * 100 else 0 }

/-- Embedding of the `groupByCat` helper of `Views.reports`. -/
def groupByCat (list : List Txn) : List CatGroup :=
  let entries := list.foldl (fun m t => addCat m (jsCat t) t.amount) []
  let total := list.foldl (fun acc t => acc + t.amount) 0
  (sortDesc entries).map (mkGroup total)

/-! ### Backup codec (Store.loadBackupData)

Import may install arbitrary parsed JSON as the store's data object, so
this part of the model works on a JSON value type rather than on the typed
`StoreData`. -/

inductive JVal
  | jnull
  | jbool (b : Bool)
  | jnum (q : ℚ)
  | jstr (s : String)
  | jarr (elems : List JVal)
  | jobj (fields : List (String × JVal))

/-- JavaScript property access `v[k]` on a parsed JSON value: `none` is
`undefined`; accessing a property of `null` throws (modelled by
`Except.error`). -/
def getField : JVal → String → Except Unit (Option JVal)
  | JVal.jnull, _ => Except.error ()
  | JVal.jobj fields, k => Except.ok (fields.lookup k)
  | _, _ => Except.ok none

/-- JavaScript truthiness of a field lookup result (`undefined`, `null`,
`false`, `0` and `""` are falsy; `NaN` does not arise from exact
rationals). -/
def truthy : Option JVal → Bool
  | none => false
  | some JVal.jnull => false
  | some (JVal.jbool b) => b
  | some (JVal.jnum q) => !(q == 0)
  | some (JVal.jstr str) => !(str == "")
  | some (JVal.jarr _) => true
  | some (JVal.jobj _) => true

/-- Result of `loadBackupData`: the returned boolean, the store's data
object afterwards, and what `save()` wrote to the key-value store
(`none` when nothing was persisted). -/
structure LoadResult where
  ret : Bool
  data : JVal
  stored : Option JVal

/-- Embedding of `Store.loadBackupData`.  `input` is the result of
`JSON.parse` (`none` when parsing threw).  The source checks
`!data.transactions || !data.accounts` and otherwise installs the parsed
object wholesale and persists it. -/
def loadBackupData (current : JVal) (input : Option JVal) : LoadResult :=
  match input with
  | none => { ret := false, data := current, stored := none }
  | some d =>
    match getField d "transactions" with
    | Except.error _ => { ret := false, data := current, stored := none }
    | Except.ok tv =>
      if truthy tv = false then { ret := false, data := current, stored := none }
      else
        match getField d "accounts" with
        | Except.error _ => { ret := false, data := current, stored := none }
        | Except.ok av =>
          if truthy av = false then
            { ret := false, data := current, stored := none }
          else { ret := true, data := d, stored := some d }

/-- A field counts as a missing collection when property access yields
`undefined` (or throws because the parse result is `null`). -/
def fieldAbsent (d : JVal) (k : String) : Prop :=
  getField d k = Except.error () ∨ getField d k = Except.ok none

/-! ### Calendar lemmas -/

lemma monthLenM_bounds (mc : Nat) : 28 ≤ monthLenM mc ∧ monthLenM mc ≤ 31 := by
  unfold monthLenM monthLength
  split_ifs <;> simp

lemma normD_of_le (mc d : Nat) (h : d ≤ monthLenM mc) : normD mc d = (mc, d) := by
  cases d with
  | zero => rfl
  | succ n => simp [normD, normDAux, h]

lemma normD_of_gt (mc d : Nat) (h1 : monthLenM mc < d)
    (h2 : d ≤ monthLenM mc + monthLenM (mc + 1)) :
    normD mc d = (mc + 1, d - monthLenM mc) := by
  have h28 := (monthLenM_bounds mc).1
  obtain ⟨n, rfl⟩ : ∃ n, d = n + 2 := ⟨d - 2, by omega⟩
  show normDAux (n + 2) mc (n + 2) = (mc + 1, n + 2 - monthLenM mc)
  rw [show normDAux (n + 2) mc (n + 2)
      = normDAux (n + 1) (mc + 1) (n + 2 - monthLenM mc) by
    simp only [normDAux]; rw [if_neg (by omega)]]
  simp only [normDAux]
  rw [if_pos (by omega)]

/-- Closed form of `recurDate` for in-range month index and a day field of
at most 31: the constructed date stays put when the (defaulted) day fits in
the target month, and otherwise rolls back to the last day of the target
month. -/
lemma recurDate_eq (year month day : Nat) (hm : month < 12) (hd : day ≤ 31) :
    recurDate year month day =
      if (if day = 0 then 10 else day) ≤ monthLenM (year * 12 + month) then
        { mc := year * 12 + month, day := if day = 0 then 10 else day, hour := 12 }
      else
        { mc := year * 12 + month, day := monthLenM (year * 12 + month), hour := 12 } := by
  have hb := monthLenM_bounds (year * 12 + month)
  have hb2 := monthLenM_bounds (year * 12 + month + 1)
  have hd1 : 1 ≤ (if day = 0 then 10 else day) ∧ (if day = 0 then 10 else day) ≤ 31 := by
    split_ifs <;> omega
  by_cases hfit : (if day = 0 then 10 else day) ≤ monthLenM (year * 12 + month)
  · rw [if_pos hfit]
    have h1 : (year * 12 + month) % 12 = month := by omega
    simp only [recurDate, mkDate, normD_of_le _ _ hfit]
    simp [JSDate.getMonth, h1]
  · rw [if_neg hfit]
    have h2 : ¬((year * 12 + month + 1) % 12 = month) := by omega
    simp only [recurDate, mkDate,
      normD_of_gt (year * 12 + month) (if day = 0 then 10 else day)
        (by omega) (by omega)]
    simp [JSDate.getMonth, h2, JSDate.setDate0]

lemma recurDate_in_target_month (year month day : Nat) (hm : month < 12)
    (hd : day ≤ 31) :
    (recurDate year month day).getMonth = month ∧
      (recurDate year month day).getFullYear = year := by
  rw [recurDate_eq year month day hm hd]
  split_ifs <;> constructor <;> simp [JSDate.getMonth, JSDate.getFullYear] <;> omega

/-- Claim C3: for every active rule whose (nonzero) day does not exist in
the target month, the date `ensureRecurringForMonth` materializes — built
by `recurDate` — is the last day of the target calendar month (`month`
within `year`), never a day of the following month. -/
theorem recurDate_clamps_to_month_end (year month day : Nat) (hm : month < 12)
    (hd1 : 1 ≤ day) (hd2 : day ≤ 31)
    (hover : monthLenM (year * 12 + month) < day) :
    recurDate year month day =
      { mc := year * 12 + month, day := monthLenM (year * 12 + month), hour := 12 } := by
  rw [recurDate_eq year month day hm hd2, if_neg]
  rw [if_neg (by omega)]
  omega

/-- Witness for C3: day 30 in February 2023 (a non-leap year) materializes
on February 28. -/
theorem recurDate_clamps_to_month_end_witness :
    monthLenM (2023 * 12 + 1) < 30 ∧
      recurDate 2023 1 30 = { mc := 2023 * 12 + 1, day := 28, hour := 12 } :=
  ⟨by decide,
    (recurDate_clamps_to_month_end 2023 1 30 (by decide) (by decide) (by decide)
      (by decide)).trans (by decide)⟩

/-! ### Counting lemmas for the materializer -/

lemma countMatching_append (txs l : List Txn) (rid : String) (m y : Nat) :
    countMatching (txs ++ l) rid m y
      = countMatching txs rid m y + countMatching l rid m y := by
  simp [countMatching, List.filter_append]

lemma count_pos_iff (txs : List Txn) (rid : String) (m y : Nat) :
    0 < countMatching txs rid m y ↔ ∃ t ∈ txs, txnMatches rid m y t = true := by
  rw [countMatching, ← List.countP_eq_length_filter, List.countP_pos]

lemma recurTxn_matches (rule : Rule) (m y : Nat) (hm : m < 12)
    (hday : rule.day ≤ 31) :
    txnMatches rule.id m y (recurTxn rule y m) = true := by
  have h := recurDate_in_target_month y m rule.day hm hday
  simp [txnMatches, recurTxn, h.1, h.2]

lemma countMatching_ensureStep_of_pos (m y : Nat) (txs : List Txn) (rule : Rule)
    (rid : String) (h : 0 < countMatching txs rid m y) :
    countMatching (ensureStep m y txs rule) rid m y = countMatching txs rid m y := by
  unfold ensureStep
  split_ifs with h1 h2
  · rfl
  · rfl
  · by_cases hid : rule.id = rid
    · exact absurd (List.any_eq_true.mpr (by
        subst hid; exact (count_pos_iff txs rule.id m y).mp h)) h2
    · have hno : txnMatches rid m y (recurTxn rule y m) = false := by
        simp [txnMatches, recurTxn, hid]
      rw [countMatching_append]
      simp [countMatching, hno]

lemma countMatching_ensureStep_le_one (m y : Nat) (txs : List Txn) (rule : Rule)
    (rid : String) (h : countMatching txs rid m y = 0) :
    countMatching (ensureStep m y txs rule) rid m y ≤ 1 := by
  unfold ensureStep
  split_ifs
  · omega
  · omega
  · rw [countMatching_append, h]
    have hle : countMatching [recurTxn rule y m] rid m y ≤ 1 := by
      have := List.length_filter_le (txnMatches rid m y) [recurTxn rule y m]
      simpa [countMatching] using this
    omega

lemma countMatching_ensureStep_mono (m y : Nat) (txs : List Txn) (rule : Rule)
    (rid : String) :
    countMatching txs rid m y ≤ countMatching (ensureStep m y txs rule) rid m y := by
  unfold ensureStep
  split_ifs
  · exact Nat.le_refl _
  · exact Nat.le_refl _
  · rw [countMatching_append]; omega

lemma countMatching_fold_of_pos (m y : Nat) (rs : List Rule) (txs : List Txn)
    (rid : String) (h : 0 < countMatching txs rid m y) :
    countMatching (rs.foldl (ensureStep m y) txs) rid m y
      = countMatching txs rid m y := by
  induction rs generalizing txs with
  | nil => rfl
  | cons x rs ih =>
    rw [List.foldl_cons,
      ih (ensureStep m y txs x)
        (by rw [countMatching_ensureStep_of_pos m y txs x rid h]; exact h),
      countMatching_ensureStep_of_pos m y txs x rid h]

lemma countMatching_fold_mono (m y : Nat) (rs : List Rule) (txs : List Txn)
    (rid : String) :
    countMatching txs rid m y
      ≤ countMatching (rs.foldl (ensureStep m y) txs) rid m y := by
  induction rs generalizing txs with
  | nil => exact Nat.le_refl _
  | cons x rs ih =>
    rw [List.foldl_cons]
    exact Nat.le_trans (countMatching_ensureStep_mono m y txs x rid)
      (ih (ensureStep m y txs x))

lemma countMatching_fold_le_one (m y : Nat) (rs : List Rule) (txs : List Txn)
    (rid : String) (h : countMatching txs rid m y ≤ 1) :
    countMatching (rs.foldl (ensureStep m y) txs) rid m y ≤ 1 := by
  induction rs generalizing txs with
  | nil => exact h
  | cons x rs ih =>
    rw [List.foldl_cons]
    apply ih
    rcases Nat.eq_zero_or_pos (countMatching txs rid m y) with h0 | hp
    · exact countMatching_ensureStep_le_one m y txs x rid h0
    · rw [countMatching_ensureStep_of_pos m y txs x rid hp]; exact h

lemma countMatching_fold_pos (m y : Nat) (rs : List Rule) (txs : List Txn)
    (r : Rule) (hmem : r ∈ rs) (hact : r.active = true) (hday : r.day ≤ 31)
    (hm : m < 12) :
    0 < countMatching (rs.foldl (ensureStep m y) txs) r.id m y := by
  induction rs generalizing txs with
  | nil => cases hmem
  | cons x rs ih =>
    rw [List.foldl_cons]
    rcases List.mem_cons.mp hmem with rfl | hmem2
    · have hpos : 0 < countMatching (ensureStep m y txs r) r.id m y := by
        unfold ensureStep
        split_ifs with h1 h2
        · rw [hact] at h1; cases h1
        · exact (count_pos_iff txs r.id m y).mpr (List.any_eq_true.mp h2)
        · rw [countMatching_append]
          have hone : countMatching [recurTxn r y m] r.id m y = 1 := by
            simp [countMatching, recurTxn_matches r m y hm hday]
          omega
      exact Nat.lt_of_lt_of_le hpos
        (countMatching_fold_mono m y rs (ensureStep m y txs r) r.id)
    · exact ih (ensureStep m y txs x) hmem2

/-- Claim C2: for a store satisfying the spec's data-model invariants (the
rule's target day lies in 1..31 and the store holds at most one
materialization for the (rule, month) pair — one rule materializes at most
one transaction per month), calling `ensureRecurringForMonth` twice for an
active rule and a target month leaves exactly one transaction carrying the
rule's `recurringId` and dated inside the target calendar month and year:
the second call creates no additional row for that pair. -/
theorem ensureRecurring_idempotent (s : StoreData) (m : JSDate) (r : Rule)
    (hmem : r ∈ s.recurring) (hact : r.active = true)
    (hday1 : 1 ≤ r.day) (hday2 : r.day ≤ 31)
    (hcount : countMatching s.transactions r.id m.getMonth m.getFullYear ≤ 1) :
    countMatching
      (ensureRecurringForMonth (ensureRecurringForMonth s m) m).transactions
      r.id m.getMonth m.getFullYear = 1 := by
  have hm : m.getMonth < 12 := by simp [JSDate.getMonth]; omega
  show countMatching
      (s.recurring.foldl (ensureStep m.getMonth m.getFullYear)
        (s.recurring.foldl (ensureStep m.getMonth m.getFullYear) s.transactions))
      r.id m.getMonth m.getFullYear = 1
  have h1pos : 0 < countMatching
      (s.recurring.foldl (ensureStep m.getMonth m.getFullYear) s.transactions)
      r.id m.getMonth m.getFullYear :=
    countMatching_fold_pos m.getMonth m.getFullYear s.recurring s.transactions
      r hmem hact hday2 hm
  have h1le : countMatching
      (s.recurring.foldl (ensureStep m.getMonth m.getFullYear) s.transactions)
      r.id m.getMonth m.getFullYear ≤ 1 :=
    countMatching_fold_le_one m.getMonth m.getFullYear s.recurring
      s.transactions r.id hcount
  rw [countMatching_fold_of_pos m.getMonth m.getFullYear s.recurring _ r.id h1pos]
  omega

def ruleW2 : Rule := { id := "R", amount := 50, day := 30 }

def storeW2 : StoreData :=
  { recurring := [ruleW2], selectedMonth := { mc := 2023 * 12 + 1, day := 5 } }

def monthW2 : JSDate := { mc := 2023 * 12 + 1, day := 5 }

/-- Witness for C2: a day-30 rule materialized twice into February 2023
leaves exactly one February transaction. -/
theorem ensureRecurring_idempotent_witness :
    ruleW2 ∈ storeW2.recurring ∧ ruleW2.active = true ∧
      countMatching
        (ensureRecurringForMonth (ensureRecurringForMonth storeW2 monthW2)
          monthW2).transactions
        ruleW2.id monthW2.getMonth monthW2.getFullYear = 1 :=
  ⟨List.mem_cons_self _ _, rfl,
    ensureRecurring_idempotent storeW2 monthW2 ruleW2 (List.mem_cons_self _ _)
      rfl (by decide) (by decide) (by decide)⟩

/-- Claim C9: `addRecurring` stores the new rule with `active = true` and
immediately materializes the currently selected month, so (for a rule
whose day field is a day of month, at most 31) a transaction carrying the
new rule's id and dated in the selected month exists as soon as
`addRecurring` returns. -/
theorem addRecurring_materializes (s : StoreData) (item : Rule) (newId : String)
    (hday : item.day ≤ 31) :
    (∃ r ∈ (addRecurring s item newId).recurring, r.id = newId ∧ r.active = true) ∧
    ∃ t ∈ (addRecurring s item newId).transactions,
      t.recurringId = some newId ∧
      t.date.getMonth = s.selectedMonth.getMonth ∧
      t.date.getFullYear = s.selectedMonth.getFullYear := by
  have hm : s.selectedMonth.getMonth < 12 := by simp [JSDate.getMonth]; omega
  constructor
  · refine ⟨{ item with id := newId, active := true }, ?_, rfl, rfl⟩
    show { item with id := newId, active := true }
        ∈ s.recurring ++ [{ item with id := newId, active := true }]
    simp
  · have hpos := countMatching_fold_pos s.selectedMonth.getMonth
      s.selectedMonth.getFullYear
      (s.recurring ++ [{ item with id := newId, active := true }])
      s.transactions { item with id := newId, active := true }
      (by simp) rfl hday hm
    obtain ⟨t, htmem, htm⟩ := (count_pos_iff _ _ _ _).mp hpos
    have hprops := htm
    simp only [txnMatches, Bool.and_eq_true, beq_iff_eq] at hprops
    exact ⟨t, htmem, hprops.1.1, hprops.1.2, hprops.2⟩

def storeW9 : StoreData := { selectedMonth := { mc := 2025 * 12 + 3, day := 7 } }

def ruleW9 : Rule := { id := "placeholder", day := 12, amount := 99 }

/-- Witness for C9 at a concrete store and rule. -/
theorem addRecurring_materializes_witness :
    ruleW9.day ≤ 31 ∧
      ((∃ r ∈ (addRecurring storeW9 ruleW9 "NEW").recurring,
          r.id = "NEW" ∧ r.active = true) ∧
        ∃ t ∈ (addRecurring storeW9 ruleW9 "NEW").transactions,
          t.recurringId = some "NEW" ∧
          t.date.getMonth = storeW9.selectedMonth.getMonth ∧
          t.date.getFullYear = storeW9.selectedMonth.getFullYear) :=
  ⟨by decide, addRecurring_materializes storeW9 ruleW9 "NEW" (by decide)⟩

/-! ### Balance and limit-status lemmas -/

lemma foldl_add_amount (l : List Txn) (a : ℚ) :
    l.foldl (fun acc t => acc + t.amount) a = a + (l.map Txn.amount).sum := by
  induction l generalizing a with
  | nil => simp
  | cons t l ih => simp [List.foldl_cons, ih]; ring

/-- Claim C1: on stores satisfying the spec's data-model invariant that
household transactions carry no `accountId`, `getAccountBalance` equals
the spec formula `initialBalance + Σ income − Σ expense` restricted to the
account's non-household transactions (so `isHomeExpense = true` rows never
affect the result), and a missing account yields 0. -/
theorem accountBalance_additivity (s : StoreData) (accountId : String)
    (hinv : ∀ t ∈ s.transactions, t.isHomeExpense = true → t.accountId = none) :
    getAccountBalance s accountId = specAccountBalance s accountId ∧
    (s.accounts.find? (fun a => a.id == accountId) = none →
      getAccountBalance s accountId = 0) := by
  have hfilters : ∀ ty : TxnType,
      s.transactions.filter (fun t =>
        t.accountId == some accountId && t.type == ty)
      = s.transactions.filter (fun t =>
        t.accountId == some accountId && t.type == ty
          && t.isHomeExpense == false) := by
    intro ty
    apply List.filter_congr
    intro t ht
    by_cases hacc : t.accountId = some accountId
    · have hhome : t.isHomeExpense = false := by
        rcases Bool.eq_false_or_eq_true t.isHomeExpense with h | h
        · exact absurd (hinv t ht h) (by simp [hacc])
        · exact h
      simp [hacc, hhome]
    · have hb : (t.accountId == some accountId) = false :=
        beq_eq_false_iff_ne.mpr hacc
      simp [hb]
  constructor
  · cases hfind : s.accounts.find? (fun a => a.id == accountId) with
    | none => simp [getAccountBalance, specAccountBalance, hfind]
    | some account =>
      simp only [getAccountBalance, specAccountBalance, hfind,
        foldl_add_amount, hfilters TxnType.income, hfilters TxnType.expense]
      ring
  · intro hnone
    simp [getAccountBalance, hnone]

def txnW1a : Txn :=
  { type := TxnType.income, amount := 5, date := { mc := 24300, day := 3 },
    accountId := some "A" }

def txnW1b : Txn :=
  { type := TxnType.expense, amount := 2, date := { mc := 24300, day := 4 },
    accountId := some "A" }

def txnW1c : Txn :=
  { type := TxnType.expense, amount := 7, date := { mc := 24300, day := 5 },
    isHomeExpense := true }

def storeW1 : StoreData :=
  { transactions := [txnW1a, txnW1b, txnW1c],
    accounts := [{ id := "A", type := AccountType.cash, initialBalance := 10 }],
    selectedMonth := { mc := 24300, day := 1 } }

/-- Witness for C1 at a store holding work income/expense rows for account
`A` plus a household row without an account reference. -/
theorem accountBalance_additivity_witness :
    (∀ t ∈ storeW1.transactions, t.isHomeExpense = true → t.accountId = none) ∧
      getAccountBalance storeW1 "A" = specAccountBalance storeW1 "A" :=
  ⟨by decide, (accountBalance_additivity storeW1 "A" (by decide)).1⟩

lemma status_cases (T a b : ℚ) (hab : a < b) :
    ((if T > b then LimitLevel.critical
        else if T > a then LimitLevel.warning else LimitLevel.safe)
        = LimitLevel.safe ↔ T ≤ a) ∧
    ((if T > b then LimitLevel.critical
        else if T > a then LimitLevel.warning else LimitLevel.safe)
        = LimitLevel.warning ↔ a < T ∧ T ≤ b) ∧
    ((if T > b then LimitLevel.critical
        else if T > a then LimitLevel.warning else LimitLevel.safe)
        = LimitLevel.critical ↔ b < T) := by
  split_ifs with h1 h2 <;>
    refine ⟨⟨fun hh => ?_, fun hh => ?_⟩, ⟨fun hh => ?_, fun hh => ?_⟩,
      ⟨fun hh => ?_, fun hh => ?_⟩⟩ <;>
    first
      | rfl
      | (exfalso; exact absurd hh (by decide))
      | linarith [hh.1, hh.2]
      | linarith
      | (exact ⟨by linarith, by linarith⟩)
      | (exfalso; exact absurd hh (by simp))

/-- Claim C4: for a regulated-entity (mei) account the annual limit status
is `safe`/`warning`/`critical` exactly on total ≤ 81000,
81000 < total ≤ 97200, total > 97200, with
total = initialBalance + current-year income; the monthly status applies
thresholds 6750 and 8100 — exactly one twelfth of the annual ones — to the
current calendar month's income only. -/
theorem limitStatus_thresholds (s : StoreData) (accountId : String) (now : JSDate) :
    (∀ st, getAccountLimitStatus s accountId now = some st →
      st.limitSafe = 81000 ∧ st.limitMax = 97200 ∧
      (st.status = LimitLevel.safe ↔ st.total ≤ 81000) ∧
      (st.status = LimitLevel.warning ↔ 81000 < st.total ∧ st.total ≤ 97200) ∧
      (st.status = LimitLevel.critical ↔ 97200 < st.total)) ∧
    (∀ a, s.accounts.find? (fun x => x.id == accountId) = some a →
      a.type = AccountType.mei →
      ∃ st, getAccountLimitStatus s accountId now = some st ∧
        st.total = a.initialBalance
          + ((s.transactions.filter (fun t =>
              t.accountId == some accountId && t.type == TxnType.income
                && t.date.getFullYear == now.getFullYear)).map Txn.amount).sum) ∧
    (∀ st, getAccountMonthlyStatus s accountId now = some st →
      st.limitSafe = 6750 ∧ st.limitMax = 8100 ∧
      st.limitSafe = 81000 / 12 ∧ st.limitMax = 97200 / 12 ∧
      (st.status = LimitLevel.safe ↔ st.total ≤ 6750) ∧
      (st.status = LimitLevel.warning ↔ 6750 < st.total ∧ st.total ≤ 8100) ∧
      (st.status = LimitLevel.critical ↔ 8100 < st.total)) ∧
    (∀ a, s.accounts.find? (fun x => x.id == accountId) = some a →
      a.type = AccountType.mei →
      ∃ st, getAccountMonthlyStatus s accountId now = some st ∧
        st.total = ((s.transactions.filter (fun t =>
            t.accountId == some accountId && t.type == TxnType.income
              && t.date.getMonth == now.getMonth
              && t.date.getFullYear == now.getFullYear)).map Txn.amount).sum) := by
  refine ⟨?_, ?_, ?_, ?_⟩
  · intro st hst
    cases hfind : s.accounts.find? (fun x => x.id == accountId) with
    | none => simp only [getAccountLimitStatus, hfind] at hst; cases hst
    | some account =>
      simp only [getAccountLimitStatus, hfind] at hst
      by_cases hty : account.type != AccountType.mei
      · rw [if_pos hty] at hst; cases hst
      · rw [if_neg hty, Option.some.injEq] at hst
        subst hst
        exact ⟨rfl, rfl, status_cases _ 81000 97200 (by norm_num)⟩
  · intro a hfind hty
    have hne : (a.type != AccountType.mei) = false := by simp [hty]
    cases hs : getAccountLimitStatus s accountId now with
    | none =>
      exfalso
      simp [getAccountLimitStatus, hfind, hne] at hs
    | some st =>
      refine ⟨st, rfl, ?_⟩
      simp only [getAccountLimitStatus, hfind, hne, Bool.false_eq_true,
        if_false, Option.some.injEq] at hs
      subst hs
      show a.initialBalance + _ = _
      rw [foldl_add_amount]
      ring
  · intro st hst
    cases hfind : s.accounts.find? (fun x => x.id == accountId) with
    | none => simp only [getAccountMonthlyStatus, hfind] at hst; cases hst
    | some account =>
      simp only [getAccountMonthlyStatus, hfind] at hst
      by_cases hty : account.type != AccountType.mei
      · rw [if_pos hty] at hst; cases hst
      · rw [if_neg hty, Option.some.injEq] at hst
        subst hst
        exact ⟨rfl, rfl, by norm_num, by norm_num,
          status_cases _ 6750 8100 (by norm_num)⟩
  · intro a hfind hty
    have hne : (a.type != AccountType.mei) = false := by simp [hty]
    cases hs : getAccountMonthlyStatus s accountId now with
    | none =>
      exfalso
      simp [getAccountMonthlyStatus, hfind, hne] at hs
    | some st =>
      refine ⟨st, rfl, ?_⟩
      simp only [getAccountMonthlyStatus, hfind, hne, Bool.false_eq_true,
        if_false, Option.some.injEq] at hs
      subst hs
      show List.foldl _ 0 _ = _
      rw [foldl_add_amount]
      ring

def accW4 : Account := { id := "M", type := AccountType.mei, initialBalance := 80000 }

def txnW4 : Txn :=
  { type := TxnType.income, amount := 2000, date := { mc := 2025 * 12 + 4, day := 2 },
    accountId := some "M" }

def storeW4 : StoreData :=
  { transactions := [txnW4], accounts := [accW4],
    selectedMonth := { mc := 2025 * 12 + 4, day := 1 } }

def nowW4 : JSDate := { mc := 2025 * 12 + 5, day := 10 }

/-- Witness for C4: the spec scenario account (initial 80000, year income
2000) has an annual status record whose total is the initial balance plus
the year income. -/
theorem limitStatus_thresholds_witness :
    storeW4.accounts.find? (fun x => x.id == "M") = some accW4 ∧
      accW4.type = AccountType.mei ∧
      ∃ st, getAccountLimitStatus storeW4 "M" nowW4 = some st ∧
        st.total = accW4.initialBalance
          + ((storeW4.transactions.filter (fun t =>
              t.accountId == some "M" && t.type == TxnType.income
                && t.date.getFullYear == nowW4.getFullYear)).map Txn.amount).sum :=
  ⟨rfl, rfl, (limitStatus_thresholds storeW4 "M" nowW4).2.1 accW4 rfl rfl⟩

/-! ### Range filter (Store.isWithinRange) -/

/-- Embedding of `Store.isWithinRange`: the start bound is forced to
00:00:00.000 and the end bound to 23:59:59.999 of their calendar days, then
the date is tested inclusively between the two timestamps. -/
def isWithinRange (d startD endD : JSDate) : Bool :=
  let start := startD.setHoursAll 0 0 0 0
  let stop := endD.setHoursAll 23 59 59 999
  decide (dateKey start ≤ dateKey d) && decide (dateKey d ≤ dateKey stop)

/-- Claim C7: because the start bound collapses to midnight and the end
bound to the last millisecond of its calendar day, a transaction dated at
any time of day on the end date's calendar day is included (whenever the
start bound's calendar day is not later than the transaction's), and one
dated on the following calendar day is excluded, regardless of the time
components supplied with the bounds. -/
theorem isWithinRange_boundary (t s e : JSDate)
    (ht : ValidDate t) (hs : ValidDate s) (he : ValidDate e) :
    (s.mc * 32 + s.day ≤ t.mc * 32 + t.day →
      t.mc = e.mc ∧ t.day = e.day → isWithinRange t s e = true) ∧
    ((t.mc = e.mc ∧ t.day = e.day + 1 ∧ e.day < monthLenM e.mc) ∨
        (t.mc = e.mc + 1 ∧ t.day = 1 ∧ e.day = monthLenM e.mc) →
      isWithinRange t s e = false) := by
  obtain ⟨htd1, htd2, hth, htm, hts, htms⟩ := ht
  obtain ⟨hsd1, hsd2, hsh, hsm, hss, hsms⟩ := hs
  obtain ⟨hed1, hed2, heh, hem, hes, hems⟩ := he
  constructor
  · rintro hse ⟨hmc, hday⟩
    simp only [isWithinRange, JSDate.setHoursAll, dateKey, Bool.and_eq_true,
      decide_eq_true_eq]
    constructor <;> omega
  · rintro (⟨hmc, hday, hlast⟩ | ⟨hmc, hday, hlast⟩) <;>
    · have hkey : decide (dateKey t ≤ dateKey (e.setHoursAll 23 59 59 999))
          = false := by
        rw [decide_eq_false_iff_not]
        simp only [JSDate.setHoursAll, dateKey]
        omega
      simp only [isWithinRange, JSDate.setHoursAll] at hkey ⊢
      rw [hkey, Bool.and_false]

def dW7 : JSDate := { mc := 2025 * 12, day := 31, hour := 23, min := 59, sec := 59, ms := 999 }

def dW7b : JSDate := { mc := 2025 * 12 + 1, day := 1, hour := 0 }

def sW7 : JSDate := { mc := 2025 * 12, day := 1, hour := 10, min := 30 }

def eW7 : JSDate := { mc := 2025 * 12, day := 31, hour := 8, min := 15, sec := 7, ms := 3 }

/-- Witness for C7: with bounds January 1 (at 10:30) to January 31 2025
(at 08:15), a transaction at the last millisecond of January 31 is
included and one at midnight of February 1 is excluded. -/
theorem isWithinRange_boundary_witness :
    ValidDate dW7 ∧ ValidDate dW7b ∧ ValidDate sW7 ∧ ValidDate eW7 ∧
      isWithinRange dW7 sW7 eW7 = true ∧ isWithinRange dW7b sW7 eW7 = false :=
  ⟨by decide, by decide, by decide, by decide,
    (isWithinRange_boundary dW7 sW7 eW7 (by decide) (by decide) (by decide)).1
      (by decide) (by decide),
    (isWithinRange_boundary dW7b sW7 eW7 (by decide) (by decide) (by decide)).2
      (Or.inr ⟨rfl, rfl, by decide⟩)⟩

/-! ### Installment expansion lemmas -/

lemma mkDate_day_le_28 (year month day hour : Nat) (hday : day ≤ 28) :
    mkDate year month day hour
      = { mc := year * 12 + month, day := day, hour := hour } := by
  have h := (monthLenM_bounds (year * 12 + month)).1
  unfold mkDate
  rw [normD_of_le _ _ (by omega)]

/-- Claim C8 (amended): an installment request for `qty` parcels creates
exactly `qty` expense transactions, one per consecutive month starting at
the base month, all sharing the group id, with category labels suffixed
`(k/qty)`; in total mode each amount is the given amount divided evenly by
`qty`, in per-installment mode it is used as given; only the first parcel
inherits the caller's paid flag.  The day of month is the base month's day
when that is at most 28, and day 1 otherwise (the source resets an
overflowing day to 1; it does not clamp it to 28). -/
theorem installParcels_spec (m : JSDate) (cat : String) (amount : ℚ) (qty : Nat)
    (modeTotal isPaid : Bool) (gid : String) :
    (installParcels m cat amount qty modeTotal isPaid gid).length = qty ∧
    ∀ i, i < qty →
      ∃ t, (installParcels m cat amount qty modeTotal isPaid gid).get? i = some t ∧
        t.type = TxnType.expense ∧
        t.amount = (if modeTotal then amount / (qty : ℚ) else amount) ∧
        t.category = some (cat ++ " (" ++ toString (i + 1) ++ "/"
          ++ toString qty ++ ")") ∧
        t.isHomeExpense = true ∧
        t.installmentId = some gid ∧
        t.isPaid = (if i = 0 then isPaid else false) ∧
        t.date = { mc := m.mc + i, day := if m.day > 28 then 1 else m.day,
                   hour := 12 } := by
  constructor
  · simp [installParcels]
  · intro i hi
    refine ⟨{ type := TxnType.expense,
              amount := if modeTotal then amount / (qty : ℚ) else amount,
              category := some (cat ++ " (" ++ toString (i + 1) ++ "/"
                ++ toString qty ++ ")"),
              date := mkDate m.getFullYear (m.getMonth + i)
                (if m.getDate > 28 then 1 else m.getDate) 12,
              isHomeExpense := true,
              isPaid := if i = 0 then isPaid else false,
              installmentId := some gid }, ?_, rfl, rfl, rfl, rfl, rfl, rfl, ?_⟩
    · simp [installParcels, List.get?_map, List.get?_range, hi]
    · show mkDate m.getFullYear (m.getMonth + i)
        (if m.getDate > 28 then 1 else m.getDate) 12 = _
      rw [mkDate_day_le_28 _ _ _ _ (by unfold JSDate.getDate; split_ifs <;> omega)]
      have hmc : m.getFullYear * 12 + (m.getMonth + i) = m.mc + i := by
        unfold JSDate.getFullYear JSDate.getMonth
        omega
      rw [hmc]
      rfl

def monthW8 : JSDate := { mc := 2025 * 12, day := 30 }

/-- Counterexample for C8 as stated: with the base date on day 30, the
claim's "day clamped to at most 28" denotes day 28, but the first parcel
generated by the source is dated on day 1 of the month. -/
theorem installParcels_day_counterexample :
    ((installParcels monthW8 "Cartao" 1200 3 true false "G").get? 0).map
        (fun t => t.date.day) = some 1 ∧
      min monthW8.day 28 = 28 ∧ (1 : Nat) ≠ 28 := by
  refine ⟨by decide, by decide, by decide⟩

def monthW8b : JSDate := { mc := 2026 * 12, day := 15 }

/-- Witness for C8 at the spec scenario: 1200 in total mode over three
months starting January 2026 gives parcels of 400 with labels `(k/3)`. -/
theorem installParcels_spec_witness :
    (installParcels monthW8b "Compra" 1200 3 true false "G").length = 3 ∧
      ∃ t, (installParcels monthW8b "Compra" 1200 3 true false "G").get? 1
          = some t ∧
        t.amount = 400 ∧ t.category = some "Compra (2/3)" ∧
        t.installmentId = some "G" ∧ t.isPaid = false ∧
        t.date = { mc := monthW8b.mc + 1, day := 15, hour := 12 } := by
  have h := installParcels_spec monthW8b "Compra" 1200 3 true false "G"
  obtain ⟨t, hg, hty, ham, hcat, hhome, hinst, hpaid, hdate⟩ := h.2 1 (by omega)
  refine ⟨h.1, t, hg, ?_, ?_, hinst, ?_, ?_⟩
  · rw [ham]; norm_num
  · rw [hcat]; rfl
  · rw [hpaid]; rfl
  · rw [hdate]; decide

/-! ### Backup codec theorems -/

lemma getField_error_imp_null (d : JVal) (k : String)
    (h : getField d k = Except.error ()) : d = JVal.jnull := by
  cases d <;> simp [getField] at h ⊢

/-- Claim C5: `loadBackupData` returns false and leaves both the in-memory
state and the persisted snapshot untouched whenever the blob failed to
parse or the parsed result lacks a `transactions` or an `accounts` field;
whenever it returns true the parsed blob replaces the entire state and is
persisted wholesale — there is no partially applied import. -/
theorem loadBackupData_atomic (current : JVal) (input : Option JVal) :
    ((input = none ∨ ∃ d, input = some d ∧
        (fieldAbsent d "transactions" ∨ fieldAbsent d "accounts")) →
      loadBackupData current input
        = { ret := false, data := current, stored := none }) ∧
    (∀ d, input = some d → (loadBackupData current input).ret = true →
      loadBackupData current input
        = { ret := true, data := d, stored := some d }) := by
  constructor
  · rintro (rfl | ⟨d, rfl, habs | habs⟩)
    · rfl
    · rcases habs with h | h <;> simp [loadBackupData, h, truthy]
    · rcases htr : getField d "transactions" with e | tv
      · simp [loadBackupData, htr]
      · by_cases htv : truthy tv = false
        · simp [loadBackupData, htr, htv]
        · rcases habs with h | h
          · exfalso
            have hd := getField_error_imp_null d "accounts" h
            subst hd
            simp [getField] at htr
          · simp [loadBackupData, htr, htv, h, truthy]
  · rintro d rfl hret
    rcases htr : getField d "transactions" with e | tv
    · simp [loadBackupData, htr] at hret
    · by_cases htv : truthy tv = false
      · simp [loadBackupData, htr, htv] at hret
      · rcases hac : getField d "accounts" with e2 | av
        · simp [loadBackupData, htr, htv, hac] at hret
        · by_cases hav : truthy av = false
          · simp [loadBackupData, htr, htv, hac, hav] at hret
          · simp [loadBackupData, htr, htv, hac, hav]

def blobW5 : JVal :=
  JVal.jobj [("transactions", JVal.jarr []), ("accounts", JVal.jarr []),
    ("recurring", JVal.jarr [])]

/-- Witness for C5: a well-formed snapshot is installed wholesale and
persisted. -/
theorem loadBackupData_atomic_witness :
    (loadBackupData (JVal.jobj []) (some blobW5)).ret = true ∧
      loadBackupData (JVal.jobj []) (some blobW5)
        = { ret := true, data := blobW5, stored := some blobW5 } :=
  ⟨rfl, (loadBackupData_atomic (JVal.jobj []) (some blobW5)).2 blobW5 rfl rfl⟩

def malformedBlob : JVal :=
  JVal.jobj [("transactions", JVal.jstr "oops"), ("accounts", JVal.jarr [])]

def currentW10 : JVal :=
  JVal.jobj [("transactions", JVal.jarr []), ("accounts", JVal.jarr [])]

/-- Claim C10: the import validates only truthiness, not shape — a blob
whose `transactions` field is a non-empty string (not a list) passes the
check, is returned as success, and is installed and persisted as the whole
store state. -/
theorem loadBackupData_truthy_only :
    loadBackupData currentW10 (some malformedBlob)
      = { ret := true, data := malformedBlob, stored := some malformedBlob } := rfl

/-! ### Category aggregation lemmas -/

lemma addCat_map_snd_sum (m : List (String × ℚ)) (c : String) (a : ℚ) :
    ((addCat m c a).map Prod.snd).sum = (m.map Prod.snd).sum + a := by
  induction m with
  | nil => simp [addCat]
  | cons p m ih =>
    obtain ⟨k, v⟩ := p
    by_cases h : k = c
    · simp [addCat, h]; ring
    · simp [addCat, h, ih]; ring

lemma entries_map_snd_sum (list : List Txn) (m : List (String × ℚ)) :
    ((list.foldl (fun acc t => addCat acc (jsCat t) t.amount) m).map
        Prod.snd).sum
      = (m.map Prod.snd).sum + (list.map Txn.amount).sum := by
  induction list generalizing m with
  | nil => simp
  | cons t l ih => simp [List.foldl_cons, ih, addCat_map_snd_sum]; ring

lemma insertDesc_map_sum (f : String × ℚ → ℚ) (p : String × ℚ)
    (l : List (String × ℚ)) :
    ((insertDesc p l).map f).sum = f p + (l.map f).sum := by
  induction l with
  | nil => simp [insertDesc]
  | cons q l ih =>
    by_cases h : q.2 < p.2
    · simp [insertDesc, h]
    · simp [insertDesc, h, ih]; ring

lemma sortAux_map_sum (f : String × ℚ → ℚ) (l acc : List (String × ℚ)) :
    ((l.foldl (fun acc p => insertDesc p acc) acc).map f).sum
      = (acc.map f).sum + (l.map f).sum := by
  induction l generalizing acc with
  | nil => simp
  | cons p l ih => simp [List.foldl_cons, ih, insertDesc_map_sum]; ring

lemma sortDesc_map_sum (f : String × ℚ → ℚ) (l : List (String × ℚ)) :
    ((sortDesc l).map f).sum = (l.map f).sum := by
  unfold sortDesc
  rw [sortAux_map_sum]
  simp

lemma mem_insertDesc (x p : String × ℚ) (l : List (String × ℚ)) :
    x ∈ insertDesc p l ↔ x = p ∨ x ∈ l := by
  induction l with
  | nil => simp [insertDesc]
  | cons q l ih =>
    by_cases h : q.2 < p.2 <;> simp [insertDesc, h, ih] <;> tauto

lemma mem_sortAux (x : String × ℚ) (l acc : List (String × ℚ)) :
    x ∈ l.foldl (fun acc p => insertDesc p acc) acc ↔ x ∈ acc ∨ x ∈ l := by
  induction l generalizing acc with
  | nil => simp
  | cons p l ih => simp [List.foldl_cons, ih, mem_insertDesc]; tauto

lemma mem_sortDesc (x : String × ℚ) (l : List (String × ℚ)) :
    x ∈ sortDesc l ↔ x ∈ l := by
  unfold sortDesc
  rw [mem_sortAux]
  simp

lemma pairwise_insertDesc (p : String × ℚ) (l : List (String × ℚ))
    (h : l.Pairwise (fun a b => b.2 ≤ a.2)) :
    (insertDesc p l).Pairwise (fun a b => b.2 ≤ a.2) := by
  induction l with
  | nil => simp [insertDesc]
  | cons q l ih =>
    rcases List.pairwise_cons.mp h with ⟨hq, hl⟩
    by_cases hlt : q.2 < p.2
    · simp only [insertDesc, if_pos hlt]
      refine List.Pairwise.cons ?_ h
      intro x hx
      rcases List.mem_cons.mp hx with rfl | hx
      · exact le_of_lt hlt
      · exact le_trans (hq x hx) (le_of_lt hlt)
    · simp only [insertDesc, if_neg hlt]
      refine List.Pairwise.cons ?_ (ih hl)
      intro x hx
      rcases (mem_insertDesc x p l).mp hx with rfl | hx
      · exact not_lt.mp hlt
      · exact hq x hx

lemma pairwise_sortAux (l acc : List (String × ℚ))
    (hacc : acc.Pairwise (fun a b => b.2 ≤ a.2)) :
    (l.foldl (fun acc p => insertDesc p acc) acc).Pairwise
      (fun a b => b.2 ≤ a.2) := by
  induction l generalizing acc with
  | nil => exact hacc
  | cons p l ih => exact ih _ (pairwise_insertDesc p acc hacc)

lemma pairwise_sortDesc (l : List (String × ℚ)) :
    (sortDesc l).Pairwise (fun a b => b.2 ≤ a.2) :=
  pairwise_sortAux l [] (List.Pairwise.nil)

lemma key_mem_addCat_self (m : List (String × ℚ)) (c : String) (a : ℚ) :
    ∃ p ∈ addCat m c a, p.1 = c := by
  induction m with
  | nil => exact ⟨(c, a), by simp [addCat]⟩
  | cons q m ih =>
    obtain ⟨k, v⟩ := q
    by_cases h : k = c
    · exact ⟨(k, v + a), by simp [addCat, h], h⟩
    · obtain ⟨p, hp, hpk⟩ := ih
      exact ⟨p, by simp [addCat, h, hp], hpk⟩

lemma key_mem_addCat_mono (m : List (String × ℚ)) (c k : String) (a : ℚ)
    (h : ∃ p ∈ m, p.1 = k) : ∃ p ∈ addCat m c a, p.1 = k := by
  induction m with
  | nil => simp at h
  | cons q m ih =>
    obtain ⟨k0, v⟩ := q
    obtain ⟨p, hp, hpk⟩ := h
    rcases List.mem_cons.mp hp with rfl | hp2
    · by_cases hc : k0 = c
      · exact ⟨(k0, v + a), by simp [addCat, hc], hpk⟩
      · exact ⟨(k0, v), by simp [addCat, hc], hpk⟩
    · by_cases hc : k0 = c
      · exact ⟨p, by simp [addCat, hc, hp2], hpk⟩
      · obtain ⟨p2, hp2m, hp2k⟩ := ih ⟨p, hp2, hpk⟩
        exact ⟨p2, by simp [addCat, hc, hp2m], hp2k⟩

lemma key_mem_fold_mono (list : List Txn) (m : List (String × ℚ)) (k : String)
    (h : ∃ p ∈ m, p.1 = k) :
    ∃ p ∈ list.foldl (fun acc t => addCat acc (jsCat t) t.amount) m, p.1 = k := by
  induction list generalizing m with
  | nil => exact h
  | cons t l ih =>
    exact ih _ (key_mem_addCat_mono m (jsCat t) k t.amount h)

lemma key_mem_fold (list : List Txn) (m : List (String × ℚ)) (t : Txn)
    (ht : t ∈ list) :
    ∃ p ∈ list.foldl (fun acc t => addCat acc (jsCat t) t.amount) m,
      p.1 = jsCat t := by
  induction list generalizing m with
  | nil => cases ht
  | cons x l ih =>
    rcases List.mem_cons.mp ht with rfl | ht2
    · exact key_mem_fold_mono l _ (jsCat t)
        (key_mem_addCat_self m (jsCat t) t.amount)
    · exact ih _ ht2

lemma map_percent_sum (l : List (String × ℚ)) (T : ℚ) :
    (l.map (fun p => p.2 / T * 100)).sum = (l.map Prod.snd).sum / T * 100 := by
  induction l with
  | nil => simp
  | cons p l ih => simp [ih]; ring

lemma map_val_mk (l : List (String × ℚ)) (T : ℚ) :
    (l.map (mkGroup T)).map CatGroup.val = l.map Prod.snd := by
  induction l with
  | nil => rfl
  | cons p l ih => simp [ih, mkGroup]

lemma map_percent_mk (l : List (String × ℚ)) (T : ℚ) (hT : T > 0) :
    (l.map (mkGroup T)).map CatGroup.percent
      = l.map (fun p => p.2 / T * 100) := by
  induction l with
  | nil => rfl
  | cons p l ih => simp [ih, mkGroup, if_pos hT]

/-- Claim C6: the category aggregation is closed — the per-group totals of
`groupByCat` sum to the sum of all input amounts, the percents sum to
exactly 100 (exact rationals; the source's floats round) whenever the grand
total is positive, absent categories fall back to the `Outros` label and
every transaction's (defaulted) category appears as a group, the groups are
ordered descending by total, and the empty input yields the empty list. -/
theorem groupByCat_closure (list : List Txn) :
    ((groupByCat list).map CatGroup.val).sum = (list.map Txn.amount).sum ∧
    (0 < (list.map Txn.amount).sum →
      ((groupByCat list).map CatGroup.percent).sum = 100) ∧
    (groupByCat list).Pairwise (fun g h => h.val ≤ g.val) ∧
    (∀ t ∈ list, ∃ g ∈ groupByCat list, g.name = jsCat t) ∧
    groupByCat ([] : List Txn) = [] := by
  have hent : ((list.foldl (fun m t => addCat m (jsCat t) t.amount) []).map
      Prod.snd).sum = (list.map Txn.amount).sum := by
    rw [entries_map_snd_sum]; simp
  have htot : list.foldl (fun acc t => acc + t.amount) 0
      = (list.map Txn.amount).sum := by
    rw [foldl_add_amount]; simp
  refine ⟨?_, ?_, ?_, ?_, rfl⟩
  · simp only [groupByCat]
    rw [map_val_mk, sortDesc_map_sum, hent]
  · intro hpos
    have hTpos : list.foldl (fun acc t => acc + t.amount) 0 > 0 := by
      rw [htot]; exact hpos
    simp only [groupByCat]
    rw [map_percent_mk _ _ hTpos, map_percent_sum, sortDesc_map_sum, hent, htot]
    rw [div_self (ne_of_gt hpos)]
    norm_num
  · simp only [groupByCat]
    rw [List.pairwise_map]
    exact pairwise_sortDesc _
  · intro t ht
    obtain ⟨p, hp, hpk⟩ := key_mem_fold list [] t ht
    simp only [groupByCat]
    refine ⟨_, List.mem_map_of_mem _ ((mem_sortDesc p _).mpr hp), hpk⟩

def txnW6a : Txn :=
  { type := TxnType.expense, amount := 3, date := { mc := 24300, day := 1 },
    category := some "Luz" }

def txnW6b : Txn :=
  { type := TxnType.expense, amount := 7, date := { mc := 24300, day := 2 } }

def txnW6c : Txn :=
  { type := TxnType.expense, amount := 2, date := { mc := 24300, day := 3 },
    category := some "Luz" }

/-- Witness for C6 at a three-transaction list whose grand total is 12:
the group totals sum to 12 and the percents sum to 100. -/
theorem groupByCat_closure_witness :
    ((groupByCat [txnW6a, txnW6b, txnW6c]).map CatGroup.val).sum
        = ([txnW6a, txnW6b, txnW6c].map Txn.amount).sum ∧
      (0 : ℚ) < ([txnW6a, txnW6b, txnW6c].map Txn.amount).sum ∧
      ((groupByCat [txnW6a, txnW6b, txnW6c]).map CatGroup.percent).sum = 100 := by
  have h := groupByCat_closure [txnW6a, txnW6b, txnW6c]
  have hpos : (0 : ℚ) < ([txnW6a, txnW6b, txnW6c].map Txn.amount).sum := by
    simp [txnW6a, txnW6b, txnW6c]
    norm_num
  exact ⟨h.1, hpos, h.2.1 hpos⟩
